import Mathlib

/-!
Verification of the encrypted semantic-retrieval subsystem
(`EncryptedAnswerRetriever` in `faiss_lookup.py`).

The retriever holds three lazily-initialized cached resources (a FAISS
vector index, a metadata list, a sentence embedder) and serves
`get_nearest_neighbors(query, case_id, question_id, n)`: it embeds the
query, searches the index for a fixed 20 nearest candidates, and walks the
candidate ids nearest-first, keeping the metadata records whose
`case_id`/`question_id` match the query scope under Python `str()`
coercion, stopping at `n` matches.

External collaborators are modelled at their documented contracts:
* the Fernet cipher is a partial decryption function (`none` models the
  `InvalidToken` exception on a wrong key or tampered ciphertext);
* the FAISS index is abstracted by a nearest-first ranking of its stored
  vector ids for each query vector; `search(v, k)` returns the first `k`
  of that ranking and, exactly as FAISS documents, pads the result with
  the sentinel id `-1` when the index holds fewer than `k` vectors;
* the sentence-transformer embedder is an abstract function from query
  text to vectors.

Python list indexing (`metadata[i]`) is embedded exactly: negative
indices wrap from the end, and an out-of-range index raises `IndexError`
(modelled as `none`).
-/

/-- A Python value used as a `case_id` / `question_id` identifier: the ids
stored in metadata and passed by callers may be strings or ints. -/
inductive PyVal where
  | pyStr (s : String)
  | pyInt (i : Int)
deriving DecidableEq, Repr

/-- Python `str()` coercion on an identifier value. -/
def PyVal.str : PyVal → String
  | .pyStr s => s
  | .pyInt i => toString i

/-- One metadata record, as consumed by `faiss_lookup.py` (keys `case_id`,
`question_id`) and `util_functions.build_prompt` (keys `answer`,
`feedback`). -/
structure MetadataRecord where
  case_id : PyVal
  question_id : PyVal
  answer : String
  feedback : String
deriving DecidableEq, Repr

/-- Python list indexing `l[i]`: a negative index wraps from the end;
an index that is still out of range raises `IndexError` (`none`). -/
def pyGet (l : List α) (i : Int) : Option α :=
  if 0 ≤ i then l[i.toNat]?
  else if 0 ≤ (l.length : Int) + i then l[((l.length : Int) + i).toNat]?
  else none

/-- The scope filter of `get_nearest_neighbors`, line 65 of
`faiss_lookup.py`:
`str(meta["case_id"]) == str(case_id) and str(meta["question_id"]) == str(question_id)`. -/
def scopeMatches (meta : MetadataRecord) (case_id question_id : PyVal) : Bool :=
  meta.case_id.str == case_id.str && meta.question_id.str == question_id.str

/-- Model of a FAISS index handle. The stored vectors and the similarity
metric are abstracted by `rank`: for each query vector, the ids
`0, …, ntotal-1` of the stored vectors listed nearest-first. -/
structure FaissIndex (Vec : Type) where
  ntotal : Nat
  rank : Vec → List Nat

/-- FAISS `index.search(v, k)` (ids row only; the distances row `D` is
unused by the retriever): the `k` nearest stored ids nearest-first,
padded with the sentinel id `-1` when the index holds fewer than `k`
vectors, exactly as FAISS documents. -/
def FaissIndex.search (idx : FaissIndex Vec) (v : Vec) (k : Nat) : List Int :=
  let hits := ((idx.rank v).take k).map Int.ofNat
  hits ++ List.replicate (k - hits.length) (-1)

/-- A well-formed index handle ranks exactly its stored ids: for every
query vector, `rank` is a duplicate-free enumeration of `0, …, ntotal-1`. -/
def FaissIndex.WF (idx : FaissIndex Vec) : Prop :=
  ∀ v, (idx.rank v).Nodup ∧ (idx.rank v).length = idx.ntotal ∧
    ∀ j ∈ idx.rank v, j < idx.ntotal

/-- The over-fetch constant: `faiss_lookup.py` line 57 searches with the
fixed `k=20` on every call. -/
def k_overfetch : Nat := 20

/-- The exceptions the retriever can raise, named by the spec's taxonomy:
`decryptionError` is Fernet's `InvalidToken` (wrong key / tampered
ciphertext), `indexFormatError` / `metadataFormatError` are
`faiss.read_index` / `pickle.load` failures on the decrypted bytes,
`modelLoadError` is a `SentenceTransformer` load failure, and
`indexError` is a Python `IndexError` from a metadata lookup. -/
inductive RetrieverError where
  | decryptionError
  | indexFormatError
  | metadataFormatError
  | modelLoadError
  | indexError
deriving DecidableEq, Repr

/-- The immutable configuration of an `EncryptedAnswerRetriever`:
the bytes read from `encrypted_index_path` and `encrypted_meta_path`,
the Fernet cipher built from `decryption_key` (a partial function,
`none` modelling `InvalidToken`), `faiss.read_index` and `pickle.load`
applied to decrypted bytes (partial, `none` modelling a parse failure),
and the `SentenceTransformer(model_name)` load (`none` modelling a model
that cannot be loaded). -/
structure RetrieverConfig (Vec : Type) where
  encrypted_index_bytes : List Nat
  encrypted_meta_bytes : List Nat
  cipher_decrypt : List Nat → Option (List Nat)
  faiss_read_index : List Nat → Option (FaissIndex Vec)
  pickle_load : List Nat → Option (List MetadataRecord)
  sentence_transformer : Option (String → Vec)

/-- The mutable lazy-cache fields of an `EncryptedAnswerRetriever`
(`self._index`, `self._metadata`, `self._embedder`), all `None` at
construction. -/
structure RetrieverState (Vec : Type) where
  _index : Option (FaissIndex Vec)
  _metadata : Option (List MetadataRecord)
  _embedder : Option (String → Vec)

/-- The freshly-constructed state (`__init__` sets all three to `None`). -/
def freshState (Vec : Type) : RetrieverState Vec := ⟨none, none, none⟩

/-- The `index` property: if `self._index` is `None`, read the encrypted
blob, decrypt it, deserialize with `faiss.read_index`, and cache the
handle; otherwise return the cached handle. Returns the outcome, the
updated state, and the number of read-decrypt-deserialize passes this
call performed. -/
def getIndex (cfg : RetrieverConfig Vec) (s : RetrieverState Vec) :
    Except RetrieverError (FaissIndex Vec) × RetrieverState Vec × Nat :=
  match s._index with
  | some idx => (.ok idx, s, 0)
  | none =>
    match cfg.cipher_decrypt cfg.encrypted_index_bytes with
    | none => (.error .decryptionError, s, 1)
    | some plain =>
      match cfg.faiss_read_index plain with
      | none => (.error .indexFormatError, s, 1)
      | some idx => (.ok idx, { s with _index := some idx }, 1)

/-- The `metadata` property: decrypt the metadata blob and `pickle.load`
it on first access, then cache. Same shape as `getIndex`. -/
def getMetadata (cfg : RetrieverConfig Vec) (s : RetrieverState Vec) :
    Except RetrieverError (List MetadataRecord) × RetrieverState Vec × Nat :=
  match s._metadata with
  | some md => (.ok md, s, 0)
  | none =>
    match cfg.cipher_decrypt cfg.encrypted_meta_bytes with
    | none => (.error .decryptionError, s, 1)
    | some plain =>
      match cfg.pickle_load plain with
      | none => (.error .metadataFormatError, s, 1)
      | some md => (.ok md, { s with _metadata := some md }, 1)

/-- The `embedder` property: load `SentenceTransformer(model_name)` on
first access, then cache. -/
def getEmbedder (cfg : RetrieverConfig Vec) (s : RetrieverState Vec) :
    Except RetrieverError (String → Vec) × RetrieverState Vec × Nat :=
  match s._embedder with
  | some e => (.ok e, s, 0)
  | none =>
    match cfg.sentence_transformer with
    | none => (.error .modelLoadError, s, 1)
    | some e => (.ok e, { s with _embedder := some e }, 1)

/-- One iteration's update of `filtered` (line 66 of `faiss_lookup.py`):
append the looked-up record exactly when its scope matches. -/
def gnnStep (filtered : List MetadataRecord) (meta : MetadataRecord)
    (case_id question_id : PyVal) : List MetadataRecord :=
  if scopeMatches meta case_id question_id then filtered ++ [meta] else filtered

/-- The candidate-walking loop of `get_nearest_neighbors` (lines 59-67):
for each candidate id `i`, look up `self.metadata[i]` (raising
`IndexError` when out of range), append the record to `filtered` when its
scope matches, and break as soon as `len(filtered) >= n`. -/
def gnnLoop (metadata : List MetadataRecord) (case_id question_id : PyVal)
    (n : Int) : List Int → List MetadataRecord →
    Except RetrieverError (List MetadataRecord)
  | [], filtered => .ok filtered
  | i :: rest, filtered =>
    match pyGet metadata i with
    | none => .error .indexError
    | some meta =>
      if n ≤ ((gnnStep filtered meta case_id question_id).length : Int)
      then .ok (gnnStep filtered meta case_id question_id)
      else gnnLoop metadata case_id question_id n rest
        (gnnStep filtered meta case_id question_id)

/-- `get_nearest_neighbors(query, case_id, question_id, n)`: embed the
query with the cached embedder, search the cached index for the
`k_overfetch = 20` nearest candidates, and walk them through the scope
filter. When no candidate matches, the source prints a warning and
returns `[]`, which is the same value the loop produced, so the result is
returned unchanged. The three property accesses appear in source order
(embedder, index, metadata); the pair returned is the Python return value
(or the raised exception) together with the retriever state after the
call. -/
def get_nearest_neighbors (cfg : RetrieverConfig Vec) (s : RetrieverState Vec)
    (query : String) (case_id question_id : PyVal) (n : Int) :
    Except RetrieverError (List MetadataRecord) × RetrieverState Vec :=
  match getEmbedder cfg s with
  | (.error e, s1, _) => (.error e, s1)
  | (.ok embed, s1, _) =>
    match getIndex cfg s1 with
    | (.error e, s2, _) => (.error e, s2)
    | (.ok idx, s2, _) =>
      match getMetadata cfg s2 with
      | (.error e, s3, _) => (.error e, s3)
      | (.ok metadata, s3, _) =>
        match gnnLoop metadata case_id question_id n
            (idx.search (embed query) k_overfetch) [] with
        | .error e => (.error e, s3)
        | .ok filtered => (.ok filtered, s3)

/-- `m` sequential calls of a resource accessor, returning the final state
and the total number of load passes performed across the calls. -/
def callN (f : RetrieverState Vec → α × RetrieverState Vec × Nat) :
    Nat → RetrieverState Vec → RetrieverState Vec × Nat
  | 0, s => (s, 0)
  | m + 1, s =>
    let r := f s
    let t := callN f m r.2.1
    (t.1, r.2.2 + t.2)

/-- The in-scope records among the over-fetched candidates, in candidate
(similarity) order: each id looked up by Python indexing, filtered by the
scope predicate. -/
def inScopeRecords (metadata : List MetadataRecord) (case_id question_id : PyVal)
    (cands : List Int) : List MetadataRecord :=
  (cands.filterMap (pyGet metadata)).filter
    (fun m => scopeMatches m case_id question_id)

/-! ### Concrete instances used by witnesses and counterexamples -/

/-- A concrete embedder handle (the vector space is collapsed to `Unit`;
none of the verified properties inspect vector contents). -/
def embU : String → Unit := fun _ => ()

/-- Record at position 0: scope `(A, 1)`. -/
def rec0 : MetadataRecord := ⟨.pyStr "A", .pyInt 1, "a0", "f0"⟩

/-- Record at position 1: scope `(A, 1)`. -/
def rec1 : MetadataRecord := ⟨.pyStr "A", .pyInt 1, "a1", "f1"⟩

/-- Record at position 2: scope `(A, 2)`. -/
def rec2 : MetadataRecord := ⟨.pyStr "A", .pyInt 2, "a2", "f2"⟩

/-- Record at position 3: scope `(B, 1)`. -/
def rec3 : MetadataRecord := ⟨.pyStr "B", .pyInt 1, "a3", "f3"⟩

/-- Record at position 4: scope `(A, 1)`. -/
def rec4 : MetadataRecord := ⟨.pyStr "A", .pyInt 1, "a4", "f4"⟩

/-- The spec's 5-record corpus with scopes
`[(A,1), (A,1), (A,2), (B,1), (A,1)]`. -/
def md5 : List MetadataRecord := [rec0, rec1, rec2, rec3, rec4]

/-- A 5-vector index whose ranking for every query is `[4, 1, 0, 2, 3]`
(nearest first), matching the spec's ordering scenario. -/
def idx5 : FaissIndex Unit := ⟨5, fun _ => [4, 1, 0, 2, 3]⟩

/-- A retriever state with the 5-record corpus fully materialized. -/
def state5 : RetrieverState Unit := ⟨some idx5, some md5, some embU⟩

/-- A configuration whose load paths are never taken (used with fully
materialized states, where the cached handles short-circuit all I/O). -/
def cfg0 : RetrieverConfig Unit :=
  ⟨[], [], fun _ => none, fun _ => none, fun _ => none, none⟩

/-- A configuration whose decryption, deserialization and model load all
succeed, producing the 5-record corpus. -/
def cfgGood : RetrieverConfig Unit :=
  ⟨[0], [1], fun b => some b, fun _ => some idx5, fun _ => some md5, some embU⟩

/-- A configuration whose Fernet cipher rejects every ciphertext
(wrong key or tampered blob: `decrypt` raises `InvalidToken`). -/
def cfgBadKey : RetrieverConfig Unit :=
  ⟨[0], [1], fun _ => none, fun _ => some idx5, fun _ => some md5, some embU⟩

/-- An empty corpus: an index holding zero vectors and an empty metadata
list, fully materialized. -/
def stateEmpty : RetrieverState Unit :=
  ⟨some ⟨0, fun _ => []⟩, some [], some embU⟩

/-- A 2-vector index ranking `[0, 1]`, holding fewer vectors than
`k_overfetch`. -/
def idx2 : FaissIndex Unit := ⟨2, fun _ => [0, 1]⟩

/-- A 2-record corpus (both records in scope `(A, 1)`) over `idx2`,
fully materialized. -/
def state2 : RetrieverState Unit := ⟨some idx2, some [rec0, rec1], some embU⟩

/-- A deliberately misaligned corpus: 3 metadata records over a 2-vector
index. -/
def mdMis : List MetadataRecord := [rec0, rec1, rec4]

/-- The misaligned pair `(idx2, mdMis)` fully materialized:
`mdMis.length = 3 ≠ 2 = idx2.ntotal`. -/
def stateMis : RetrieverState Unit := ⟨some idx2, some mdMis, some embU⟩

/-- The one record of `mdBig` in scope `(C, 9)`, at position 20. -/
def recC9 : MetadataRecord := ⟨.pyStr "C", .pyInt 9, "a20", "f20"⟩

/-- A 21-record corpus: positions 0–19 in scope `(B, 2)` and position 20
in scope `(C, 9)`. Larger than `k_overfetch`, so the record at position
20 can fall outside the over-fetched candidates. -/
def mdBig : List MetadataRecord :=
  (List.range 20).map (fun k => ⟨.pyStr "B", .pyInt 2, toString k, "f"⟩) ++
    [recC9]

/-- A 21-vector index ranking `[0, 1, …, 20]` nearest-first: the top-20
candidates are positions 0–19, leaving position 20 un-fetched. -/
def idxBig : FaissIndex Unit := ⟨21, fun _ => List.range 21⟩

/-- The aligned pair `(idxBig, mdBig)` fully materialized. -/
def stateBig : RetrieverState Unit := ⟨some idxBig, some mdBig, some embU⟩

/-! ### Helper lemmas -/

/-- A successful Python list lookup returns an element of the list. -/
theorem pyGet_mem {l : List α} {i : Int} {a : α} (h : pyGet l i = some a) :
    a ∈ l := by
  unfold pyGet at h
  split at h
  · exact List.getElem?_mem h
  · split at h
    · exact List.getElem?_mem h
    · exact absurd h (by simp)

/-- A nonnegative Python lookup is plain list lookup. -/
theorem pyGet_nonneg {l : List α} {j : Nat} :
    pyGet l (Int.ofNat j) = l[j]? := by
  unfold pyGet
  simp

/-- On a nonempty list, Python's `l[-1]` returns the last element. -/
theorem pyGet_neg_one {l : List α} (h : l ≠ []) :
    pyGet l (-1) = some (l.getLast h) := by
  unfold pyGet
  have hlen : 1 ≤ l.length := List.length_pos.mpr h
  have h1 : ¬ (0 : Int) ≤ -1 := by decide
  have h2 : (0 : Int) ≤ (l.length : Int) + -1 := by omega
  have h3 : ((l.length : Int) + -1).toNat = l.length - 1 := by omega
  simp only [h1, if_false, h2, if_true, h3]
  rw [List.getElem?_eq_getElem (by omega)]
  simp [List.getLast_eq_getElem]

/-- Membership in the conditional-append step: the record was already
accumulated, or it is the looked-up record and its scope matched. -/
theorem mem_gnnStep {m meta : MetadataRecord} {acc : List MetadataRecord}
    {cid qid : PyVal} (h : m ∈ gnnStep acc meta cid qid) :
    m ∈ acc ∨ (m = meta ∧ scopeMatches meta cid qid = true) := by
  unfold gnnStep at h
  split at h
  · rcases List.mem_append.mp h with h1 | h1
    · exact Or.inl h1
    · exact Or.inr ⟨List.mem_singleton.mp h1, by assumption⟩
  · exact Or.inl h

/-- Every record kept by the candidate loop was either already in the
accumulator or passed the scope filter. -/
theorem gnnLoop_mem {metadata : List MetadataRecord} {cid qid : PyVal} {n : Int}
    {cands : List Int} {acc res : List MetadataRecord}
    (h : gnnLoop metadata cid qid n cands acc = .ok res)
    {m : MetadataRecord} (hm : m ∈ res) :
    m ∈ acc ∨ scopeMatches m cid qid = true := by
  induction cands generalizing acc with
  | nil =>
    simp only [gnnLoop, Except.ok.injEq] at h
    subst h
    exact Or.inl hm
  | cons i rest ih =>
    cases hpg : pyGet metadata i with
    | none =>
      simp only [gnnLoop, hpg] at h
      exact absurd h (by simp)
    | some meta =>
      simp only [gnnLoop, hpg] at h
      split at h
      · simp only [Except.ok.injEq] at h
        subst h
        rcases mem_gnnStep hm with hma | ⟨hme, hsc⟩
        · exact Or.inl hma
        · subst hme
          exact Or.inr hsc
      · rcases ih h with hma | hmb
        · rcases mem_gnnStep hma with hc | ⟨hme, hsc⟩
          · exact Or.inl hc
          · subst hme
            exact Or.inr hsc
        · exact Or.inr hmb

/-- When every candidate id looks up successfully, the loop cannot raise:
it returns some result list. -/
theorem gnnLoop_isOk {metadata : List MetadataRecord} {cid qid : PyVal} {n : Int}
    {cands : List Int} (acc : List MetadataRecord)
    (hl : ∀ i ∈ cands, (pyGet metadata i).isSome) :
    ∃ res, gnnLoop metadata cid qid n cands acc = .ok res := by
  induction cands generalizing acc with
  | nil => exact ⟨acc, rfl⟩
  | cons i rest ih =>
    have hi : (pyGet metadata i).isSome := hl i (List.mem_cons_self i rest)
    cases hpg : pyGet metadata i with
    | none => rw [hpg] at hi; exact absurd hi (by simp)
    | some meta =>
      simp only [gnnLoop, hpg]
      split
      · exact ⟨_, rfl⟩
      · exact ih _ (fun j hj => hl j (List.mem_cons_of_mem i hj))

/-- When every candidate id looks up successfully and none of the
candidates' looked-up records matches the scope, the loop returns the
unchanged empty accumulator: no out-of-scope record is ever kept.
(Records outside the candidate list are never consulted, matching or
not.) -/
theorem gnnLoop_nomatch {metadata : List MetadataRecord} {cid qid : PyVal}
    {n : Int} {cands : List Int}
    (hl : ∀ i ∈ cands, (pyGet metadata i).isSome)
    (hno : ∀ i ∈ cands, ∀ m ∈ pyGet metadata i,
      scopeMatches m cid qid = false) :
    gnnLoop metadata cid qid n cands [] = .ok [] := by
  induction cands with
  | nil => rfl
  | cons i rest ih =>
    have hi : (pyGet metadata i).isSome := hl i (List.mem_cons_self i rest)
    cases hpg : pyGet metadata i with
    | none => rw [hpg] at hi; exact absurd hi (by simp)
    | some meta =>
      have hsc : scopeMatches meta cid qid = false :=
        hno i (List.mem_cons_self i rest) meta (Option.mem_def.mpr hpg)
      have hstep : gnnStep [] meta cid qid = [] := by
        unfold gnnStep
        rw [hsc]
        simp
      simp only [gnnLoop, hpg, hstep]
      split
      · rfl
      · exact ih (fun j hj => hl j (List.mem_cons_of_mem i hj))
          (fun j hj => hno j (List.mem_cons_of_mem i hj))

/-- The loop's successful outcome, characterized: starting from an
accumulator strictly shorter than `n`, the result is the accumulator
followed by the in-scope candidate records, in candidate order, truncated
to `n` total. -/
theorem gnnLoop_ok_eq {metadata : List MetadataRecord} {cid qid : PyVal}
    {n : Int} {cands : List Int} {acc res : List MetadataRecord}
    (hacc : (acc.length : Int) < n)
    (h : gnnLoop metadata cid qid n cands acc = .ok res) :
    res = acc ++ (inScopeRecords metadata cid qid cands).take
      (n - acc.length).toNat := by
  induction cands generalizing acc with
  | nil =>
    simp only [gnnLoop, Except.ok.injEq] at h
    subst h
    simp [inScopeRecords]
  | cons i rest ih =>
    cases hpg : pyGet metadata i with
    | none =>
      simp only [gnnLoop, hpg] at h
      exact absurd h (by simp)
    | some meta =>
      simp only [gnnLoop, hpg] at h
      have hiscope : inScopeRecords metadata cid qid (i :: rest) =
          (if scopeMatches meta cid qid then [meta] else []) ++
            inScopeRecords metadata cid qid rest := by
        unfold inScopeRecords
        simp only [List.filterMap_cons, hpg]
        split
        · simp [List.filter_cons, *]
        · simp [List.filter_cons, *]
      cases hsc : scopeMatches meta cid qid with
      | false =>
        have hstep : gnnStep acc meta cid qid = acc := by
          unfold gnnStep
          rw [hsc]
          simp
        rw [hstep] at h
        rw [hiscope, hsc]
        simp only [if_false, List.nil_append, Bool.false_eq_true]
        split at h
        · omega
        · exact ih hacc h
      | true =>
        have hstep : gnnStep acc meta cid qid = acc ++ [meta] := by
          unfold gnnStep
          rw [hsc]
          simp
        rw [hstep] at h
        rw [hiscope, hsc]
        simp only [if_true]
        split at h
        · rename_i hbreak
          simp only [Except.ok.injEq] at h
          subst h
          have hlen : (acc ++ [meta]).length = acc.length + 1 := by simp
          have hn : n = (acc.length : Int) + 1 := by
            rw [hlen] at hbreak
            push_cast at hbreak
            omega
          have ht : (n - acc.length).toNat = 1 := by omega
          rw [ht]
          simp
        · rename_i hbreak
          have hacc' : (((acc ++ [meta]).length : Int)) < n := by
            simp at hbreak ⊢
            omega
          have hres := ih hacc' h
          have hlen : (acc ++ [meta]).length = acc.length + 1 := by simp
          rw [hres, hlen]
          have ht : (n - acc.length).toNat = (n - (acc.length + 1)).toNat + 1 := by
            omega
          rw [ht]
          simp

/-- A materialized index cache short-circuits the accessor. -/
theorem getIndex_cached {cfg : RetrieverConfig Vec} {s : RetrieverState Vec}
    {idx : FaissIndex Vec} (h : s._index = some idx) :
    getIndex cfg s = (.ok idx, s, 0) := by
  unfold getIndex
  rw [h]

/-- A materialized metadata cache short-circuits the accessor. -/
theorem getMetadata_cached {cfg : RetrieverConfig Vec} {s : RetrieverState Vec}
    {md : List MetadataRecord} (h : s._metadata = some md) :
    getMetadata cfg s = (.ok md, s, 0) := by
  unfold getMetadata
  rw [h]

/-- A materialized embedder cache short-circuits the accessor. -/
theorem getEmbedder_cached {cfg : RetrieverConfig Vec} {s : RetrieverState Vec}
    {emb : String → Vec} (h : s._embedder = some emb) :
    getEmbedder cfg s = (.ok emb, s, 0) := by
  unfold getEmbedder
  rw [h]

/-- On a fully materialized retriever state, a query reduces to the
candidate loop over the over-fetched search results, and the state is
unchanged. -/
theorem gnn_materialized {cfg : RetrieverConfig Vec} {s : RetrieverState Vec}
    {idx : FaissIndex Vec} {md : List MetadataRecord} {emb : String → Vec}
    (hI : s._index = some idx) (hM : s._metadata = some md)
    (hE : s._embedder = some emb) (q : String) (cid qid : PyVal) (n : Int) :
    get_nearest_neighbors cfg s q cid qid n =
      match gnnLoop md cid qid n (idx.search (emb q) k_overfetch) [] with
      | .error e => (.error e, s)
      | .ok filtered => (.ok filtered, s) := by
  unfold get_nearest_neighbors
  simp only [getEmbedder_cached hE, getIndex_cached hI, getMetadata_cached hM]

/-! ### Claim theorems -/

/-- C1: every record returned by `get_nearest_neighbors(query, case_id,
question_id, n)` matches the query's `(case_id, question_id)` scope
exactly under string-normalized comparison (`str()` coercion of both
sides); no returned record comes from a different scope. -/
theorem scope_correctness_of_results {Vec : Type} {cfg : RetrieverConfig Vec}
    {s s' : RetrieverState Vec} {q : String} {cid qid : PyVal} {n : Int}
    {res : List MetadataRecord}
    (h : get_nearest_neighbors cfg s q cid qid n = (.ok res, s'))
    {m : MetadataRecord} (hm : m ∈ res) :
    scopeMatches m cid qid = true := by
  unfold get_nearest_neighbors at h
  split at h
  · simp at h
  · split at h
    · simp at h
    · split at h
      · simp at h
      · split at h
        · simp at h
        · rename_i hloop
          simp only [Prod.mk.injEq, Except.ok.injEq] at h
          obtain ⟨hres, -⟩ := h
          subst hres
          rcases gnnLoop_mem hloop hm with hc | hc
          · exact absurd hc (by simp)
          · exact hc

/-- Witness for C1: at the 5-record corpus with query scope `(A, 1)` and
`n = 2`, the call returns `[rec4, rec1]` and both returned records match
the queried scope. -/
theorem scope_correctness_of_results_witness :
    scopeMatches rec4 (.pyStr "A") (.pyInt 1) = true ∧
    scopeMatches rec1 (.pyStr "A") (.pyInt 1) = true :=
  ⟨@scope_correctness_of_results Unit cfg0 state5 state5 "q" (.pyStr "A")
      (.pyInt 1) 2 [rec4, rec1] rfl rec4 (by simp),
   @scope_correctness_of_results Unit cfg0 state5 state5 "q" (.pyStr "A")
      (.pyInt 1) 2 [rec4, rec1] rfl rec1 (by simp)⟩

/-- C3: for every `n ≥ 1`, a successfully returned list has length
between `0` and `n` inclusive, and collection stops as soon as `n`
in-scope matches are retained or the candidate list is exhausted: the
result is exactly the first `n` in-scope records among the over-fetched
candidates. -/
theorem result_length_bounded {Vec : Type} {cfg : RetrieverConfig Vec}
    {s s' : RetrieverState Vec} {q : String} {cid qid : PyVal} {n : Int}
    {idx : FaissIndex Vec} {md : List MetadataRecord} {emb : String → Vec}
    {res : List MetadataRecord}
    (hI : s._index = some idx) (hM : s._metadata = some md)
    (hE : s._embedder = some emb) (hn : 1 ≤ n)
    (h : get_nearest_neighbors cfg s q cid qid n = (.ok res, s')) :
    (0 : Int) ≤ (res.length : Int) ∧ (res.length : Int) ≤ n ∧
    res = (inScopeRecords md cid qid
      (idx.search (emb q) k_overfetch)).take n.toNat := by
  rw [gnn_materialized hI hM hE q cid qid n] at h
  split at h
  · simp at h
  · rename_i hloop
    simp only [Prod.mk.injEq, Except.ok.injEq] at h
    obtain ⟨hres, -⟩ := h
    subst hres
    have hchar := gnnLoop_ok_eq (by simpa using hn) hloop
    simp only [List.length_nil, Nat.cast_zero, Int.sub_zero,
      List.nil_append] at hchar
    refine ⟨by omega, ?_, hchar⟩
    rw [hchar]
    have := List.length_take_le n.toNat
      (inScopeRecords md cid qid (idx.search (emb q) k_overfetch))
    omega

/-- Witness for C3: at the 5-record corpus with scope `(A, 1)` and
`n = 1`, the returned list `[rec4]` has length between 0 and 1 and is
the 1-truncation of the in-scope candidates. -/
theorem result_length_bounded_witness :
    (0 : Int) ≤ (([rec4] : List MetadataRecord).length : Int) ∧
    (([rec4] : List MetadataRecord).length : Int) ≤ 1 ∧
    ([rec4] : List MetadataRecord) = (inScopeRecords md5 (.pyStr "A")
      (.pyInt 1) (idx5.search (embU "q") k_overfetch)).take (1 : Int).toNat :=
  @result_length_bounded Unit cfg0 state5 state5 "q" (.pyStr "A") (.pyInt 1)
    1 idx5 md5 embU [rec4] rfl rfl rfl (by decide) rfl

/-- C4: returned in-scope records appear nearest-first — the result list
is a sublist (order-preserving selection) of the candidate records in
similarity order. -/
theorem results_in_similarity_order {Vec : Type} {cfg : RetrieverConfig Vec}
    {s s' : RetrieverState Vec} {q : String} {cid qid : PyVal} {n : Int}
    {idx : FaissIndex Vec} {md : List MetadataRecord} {emb : String → Vec}
    {res : List MetadataRecord}
    (hI : s._index = some idx) (hM : s._metadata = some md)
    (hE : s._embedder = some emb) (hn : 1 ≤ n)
    (h : get_nearest_neighbors cfg s q cid qid n = (.ok res, s')) :
    res.Sublist ((idx.search (emb q) k_overfetch).filterMap (pyGet md)) := by
  obtain ⟨-, -, hchar⟩ := result_length_bounded hI hM hE hn h
  rw [hchar]
  exact (List.take_sublist _ _).trans
    ((List.filter_sublist _).trans (List.Sublist.refl _))

/-- Witness for C4, the spec's concrete ordering scenario: 5 vectors with
scopes `[(A,1),(A,1),(A,2),(B,1),(A,1)]`, candidate order `[4,1,0,2,3]`,
scope `(A,1)`, `n = 2`: the call returns exactly the records at positions
4 then 1, in that order — a sublist of the candidates in similarity
order. -/
theorem results_in_similarity_order_witness :
    get_nearest_neighbors cfg0 state5 "q" (.pyStr "A") (.pyInt 1) 2 =
      (.ok [rec4, rec1], state5) ∧
    List.Sublist [rec4, rec1]
      ((idx5.search (embU "q") k_overfetch).filterMap (pyGet md5)) :=
  ⟨rfl, @results_in_similarity_order Unit cfg0 state5 state5 "q" (.pyStr "A")
    (.pyInt 1) 2 idx5 md5 embU [rec4, rec1] rfl rfl rfl (by decide) rfl⟩

/-- C2 counterexample: on a corpus containing no metadata records at all
— so that, in particular, no record anywhere matches the requested scope
`(C, 9)` — the call does not return an empty list: FAISS pads all 20
candidate slots with the sentinel id `-1`, and the very first
`metadata[-1]` lookup on the empty list raises `IndexError`. -/
theorem empty_corpus_raises_instead_of_empty :
    (get_nearest_neighbors cfg0 stateEmpty "q" (.pyStr "C") (.pyInt 9) 5).1 =
      .error .indexError := rfl

/-- C2 amended: provided the corpus is nonempty (the metadata table holds
at least one record, positionally aligned with a well-formed index), a
query none of whose over-fetched candidates' looked-up records matches
the requested scope returns the empty list and raises no exception — it
never falls back to out-of-scope records. (In-scope records outside the
over-fetched candidates are permitted; they are simply never reached.)
On the empty corpus the sentinel-id lookup instead raises `IndexError`. -/
theorem no_match_returns_empty {Vec : Type} {cfg : RetrieverConfig Vec}
    {s : RetrieverState Vec} {q : String} {cid qid : PyVal} {n : Int}
    {idx : FaissIndex Vec} {md : List MetadataRecord} {emb : String → Vec}
    (hI : s._index = some idx) (hM : s._metadata = some md)
    (hE : s._embedder = some emb) (hwf : idx.WF)
    (halign : md.length = idx.ntotal) (hne : md ≠ [])
    (hno : ∀ i ∈ idx.search (emb q) k_overfetch, ∀ m ∈ pyGet md i,
      scopeMatches m cid qid = false) :
    get_nearest_neighbors cfg s q cid qid n = (.ok [], s) := by
  rw [gnn_materialized hI hM hE q cid qid n]
  have hl : ∀ i ∈ idx.search (emb q) k_overfetch, (pyGet md i).isSome := by
    intro i hi
    unfold FaissIndex.search at hi
    rcases List.mem_append.mp hi with hh | hp
    · obtain ⟨j, hj, hij⟩ := List.mem_map.mp hh
      have hjr : j ∈ idx.rank (emb q) := List.mem_of_mem_take hj
      have hjlt : j < md.length := by
        rw [halign]
        exact (hwf (emb q)).2.2 j hjr
      subst hij
      rw [pyGet_nonneg, List.getElem?_eq_getElem hjlt]
      rfl
    · have hi1 : i = -1 := List.eq_of_mem_replicate hp
      subst hi1
      rw [pyGet_neg_one hne]
      rfl
  rw [gnnLoop_nomatch hl hno]

/-- Witness for the amended C2 at the 21-record corpus: the in-scope
record `recC9` is present in the metadata table but lies outside the
top-20 over-fetched candidates (positions 0–19, all scope `(B, 2)`), so
none of the candidates matches scope `(C, 9)` and the call returns the
empty list with no exception. -/
theorem no_match_returns_empty_witness :
    recC9 ∈ mdBig ∧ scopeMatches recC9 (.pyStr "C") (.pyInt 9) = true ∧
    get_nearest_neighbors cfg0 stateBig "q" (.pyStr "C") (.pyInt 9) 5 =
      (.ok [], stateBig) :=
  ⟨by decide, by decide,
    @no_match_returns_empty Unit cfg0 stateBig "q" (.pyStr "C") (.pyInt 9) 5
      idxBig mdBig embU rfl rfl rfl
      (by
        intro v
        cases v
        exact ⟨List.nodup_range 21, List.length_range 21,
          fun j hj => List.mem_range.mp hj⟩)
      (by decide) (by decide) (by decide)⟩

/-- C5 counterexample: the over-fetch width is the fixed constant 20, so
at a call with requested result count `n = 20` the index is searched for
exactly `k_overfetch = 20` candidates, which is not strictly larger than
`n`. -/
theorem overfetch_not_strictly_larger_at_twenty :
    (idx5.search (embU "q") k_overfetch).length = k_overfetch ∧
    ¬ ((20 : Int) < (k_overfetch : Int)) := ⟨rfl, by decide⟩

/-- C5 amended: every call searches the index for exactly the fixed
`k_overfetch = 20` nearest candidates; this width is strictly larger
than the requested count `n` only when `n < 20` — which covers every
call in this repository (`app.py` passes `n = 3`; the source default is
`n = 5`), but not arbitrary `n`. -/
theorem overfetch_is_constant_twenty {Vec : Type} (idx : FaissIndex Vec)
    (v : Vec) (n : Int) (hn : n < 20) :
    (idx.search v k_overfetch).length = k_overfetch ∧
    n < (k_overfetch : Int) := by
  constructor
  · unfold FaissIndex.search
    simp only [List.length_append, List.length_map, List.length_take,
      List.length_replicate]
    omega
  · unfold k_overfetch
    omega

/-- Witness for the amended C5 at the source's default `n = 5`. -/
theorem overfetch_is_constant_twenty_witness :
    (idx5.search (embU "q") k_overfetch).length = k_overfetch ∧
    (5 : Int) < (k_overfetch : Int) :=
  overfetch_is_constant_twenty idx5 (embU "q") 5 (by decide)

/-- C7 counterexample: a deliberately misaligned pair — 3 metadata
records over a 2-vector index — is served silently: the query succeeds
with a normal result and no error, so no alignment verification happens
before serving. -/
theorem misaligned_pair_served_silently :
    mdMis.length ≠ idx2.ntotal ∧
    (get_nearest_neighbors cfg0 stateMis "q" (.pyStr "A") (.pyInt 1) 5).1 =
      .ok [rec0, rec1, rec4, rec4, rec4] := ⟨by decide, rfl⟩

/-- C7 amended: the code contains no alignment check between
`len(metadata)` and the index's vector count: whenever the over-fetched
candidate ids happen to be valid Python indexes into the metadata list, a
query on a misaligned pair is served normally (no error, no detection).
(When a candidate id is out of range for the shorter metadata list, the
failure surfaces only as an `IndexError` mid-query, not as an alignment
check.) -/
theorem no_alignment_check {Vec : Type} {cfg : RetrieverConfig Vec}
    {s : RetrieverState Vec} {idx : FaissIndex Vec}
    {md : List MetadataRecord} {emb : String → Vec}
    (hI : s._index = some idx) (hM : s._metadata = some md)
    (hE : s._embedder = some emb) (q : String) (cid qid : PyVal) (n : Int)
    (hmis : md.length ≠ idx.ntotal)
    (hl : ∀ i ∈ idx.search (emb q) k_overfetch, (pyGet md i).isSome) :
    ((get_nearest_neighbors cfg s q cid qid n).1).isOk = true := by
  rw [gnn_materialized hI hM hE q cid qid n]
  obtain ⟨res, hres⟩ := gnnLoop_isOk [] hl
  rw [hres]
  rfl

/-- Witness for the amended C7 at the concrete misaligned pair
`(idx2, mdMis)`. -/
theorem no_alignment_check_witness :
    ((get_nearest_neighbors cfg0 stateMis "q" (.pyStr "A") (.pyInt 1) 5).1).isOk
      = true :=
  @no_alignment_check Unit cfg0 stateMis idx2 mdMis embU rfl rfl rfl
    "q" (.pyStr "A") (.pyInt 1) 5 (by decide) (by decide)

/-- C8: when the Fernet cipher rejects the encrypted index blob (wrong
key or tampered/corrupted ciphertext), the `index` accessor raises
`DecryptionError`, returns no index handle (in particular no
partially-decrypted one), and leaves the retriever state unchanged: the
cached `_index` slot remains unset for later calls. -/
theorem wrong_key_raises_decryption_error {Vec : Type}
    {cfg : RetrieverConfig Vec} {s : RetrieverState Vec}
    (h0 : s._index = none)
    (hd : cfg.cipher_decrypt cfg.encrypted_index_bytes = none) :
    getIndex cfg s = (.error .decryptionError, s, 1) ∧
    ((getIndex cfg s).2.1)._index = none := by
  have h : getIndex cfg s = (.error .decryptionError, s, 1) := by
    unfold getIndex
    simp only [h0, hd]
  exact ⟨h, by rw [h]; exact h0⟩

/-- Witness for C8: a cipher that rejects every ciphertext (wrong key)
makes the first index access fail with `DecryptionError` and leaves the
fresh state's cache unset. -/
theorem wrong_key_raises_decryption_error_witness :
    getIndex cfgBadKey (freshState Unit) =
      (.error .decryptionError, freshState Unit, 1) ∧
    ((getIndex cfgBadKey (freshState Unit)).2.1)._index = none :=
  @wrong_key_raises_decryption_error Unit cfgBadKey (freshState Unit) rfl rfl

/-- C10: the metadata lookup uses the raw candidate id with no bounds
check. On the 2-vector corpus (fewer vectors than `k_overfetch = 20`)
the search pads with the sentinel id `-1`, and `metadata[-1]` silently
yields the last record `rec1`, which is in scope: the call returns it
four times, and the 5-element result exceeds the corpus's 2 true
in-scope neighbors, so the repeated occurrences are not among the true
nearest in-scope neighbors. -/
theorem sentinel_lookup_duplicates_last_record :
    idx2.ntotal < k_overfetch ∧
    pyGet [rec0, rec1] (-1) = some rec1 ∧
    (get_nearest_neighbors cfg0 state2 "q" (.pyStr "A") (.pyInt 1) 5).1 =
      .ok [rec0, rec1, rec1, rec1, rec1] ∧
    idx2.ntotal < ([rec0, rec1, rec1, rec1, rec1] : List MetadataRecord).length
    := ⟨by decide, rfl, rfl, by decide⟩

/-- Any number of accessor calls on an already-cached index performs zero
further load passes and never changes the state. -/
theorem callN_getIndex_cached {cfg : RetrieverConfig Vec}
    {s : RetrieverState Vec} {idx : FaissIndex Vec}
    (h : s._index = some idx) (m : Nat) :
    callN (getIndex cfg) m s = (s, 0) := by
  induction m with
  | zero => rfl
  | succ m ih => simp [callN, getIndex_cached h, ih]

/-- Any number of accessor calls on already-cached metadata performs zero
further load passes and never changes the state. -/
theorem callN_getMetadata_cached {cfg : RetrieverConfig Vec}
    {s : RetrieverState Vec} {md : List MetadataRecord}
    (h : s._metadata = some md) (m : Nat) :
    callN (getMetadata cfg) m s = (s, 0) := by
  induction m with
  | zero => rfl
  | succ m ih => simp [callN, getMetadata_cached h, ih]

/-- Any number of accessor calls on an already-cached embedder performs
zero further load passes and never changes the state. -/
theorem callN_getEmbedder_cached {cfg : RetrieverConfig Vec}
    {s : RetrieverState Vec} {emb : String → Vec}
    (h : s._embedder = some emb) (m : Nat) :
    callN (getEmbedder cfg) m s = (s, 0) := by
  induction m with
  | zero => rfl
  | succ m ih => simp [callN, getEmbedder_cached h, ih]

/-- A successful first index access from an uncached state caches exactly
the returned handle and costs exactly one load pass. -/
theorem getIndex_first {cfg : RetrieverConfig Vec} {s0 : RetrieverState Vec}
    (h0 : s0._index = none) {idx : FaissIndex Vec} {sI : RetrieverState Vec}
    {cI : Nat} (hI : getIndex cfg s0 = (.ok idx, sI, cI)) :
    sI._index = some idx ∧ cI = 1 := by
  unfold getIndex at hI
  rcases hd : cfg.cipher_decrypt cfg.encrypted_index_bytes with _ | plain
  · simp only [h0, hd] at hI
    exact absurd hI (by simp)
  · rcases hr : cfg.faiss_read_index plain with _ | idx'
    · simp only [h0, hd, hr] at hI
      exact absurd hI (by simp)
    · simp only [h0, hd, hr, Prod.mk.injEq, Except.ok.injEq] at hI
      obtain ⟨hidx, hs, hc⟩ := hI
      subst hidx
      subst hs
      exact ⟨rfl, hc.symm⟩

/-- A successful first metadata access from an uncached state caches
exactly the returned table and costs exactly one load pass. -/
theorem getMetadata_first {cfg : RetrieverConfig Vec} {s0 : RetrieverState Vec}
    (h0 : s0._metadata = none) {md : List MetadataRecord}
    {sM : RetrieverState Vec} {cM : Nat}
    (hM : getMetadata cfg s0 = (.ok md, sM, cM)) :
    sM._metadata = some md ∧ cM = 1 := by
  unfold getMetadata at hM
  rcases hd : cfg.cipher_decrypt cfg.encrypted_meta_bytes with _ | plain
  · simp only [h0, hd] at hM
    exact absurd hM (by simp)
  · rcases hr : cfg.pickle_load plain with _ | md'
    · simp only [h0, hd, hr] at hM
      exact absurd hM (by simp)
    · simp only [h0, hd, hr, Prod.mk.injEq, Except.ok.injEq] at hM
      obtain ⟨hmd, hs, hc⟩ := hM
      subst hmd
      subst hs
      exact ⟨rfl, hc.symm⟩

/-- A successful first embedder access from an uncached state caches
exactly the returned handle and costs exactly one load pass. -/
theorem getEmbedder_first {cfg : RetrieverConfig Vec} {s0 : RetrieverState Vec}
    (h0 : s0._embedder = none) {emb : String → Vec} {sE : RetrieverState Vec}
    {cE : Nat} (hE : getEmbedder cfg s0 = (.ok emb, sE, cE)) :
    sE._embedder = some emb ∧ cE = 1 := by
  unfold getEmbedder at hE
  rcases hd : cfg.sentence_transformer with _ | e
  · simp only [h0, hd] at hE
    exact absurd hE (by simp)
  · simp only [h0, hd, Prod.mk.injEq, Except.ok.injEq] at hE
    obtain ⟨he, hs, hc⟩ := hE
    subst he
    subst hs
    exact ⟨rfl, hc.symm⟩

/-- C6: for each of the three cached resources (index, metadata,
embedder), after a successful first access from a fresh state, a second
access returns the same cached handle with zero load passes, and any
number of sequential accessor calls performs the read-decrypt-deserialize
(resp. model-load) sequence exactly once in total. -/
theorem lazy_init_caches_once {Vec : Type} {cfg : RetrieverConfig Vec}
    {s0 : RetrieverState Vec}
    (h0I : s0._index = none) (h0M : s0._metadata = none)
    (h0E : s0._embedder = none)
    {idx : FaissIndex Vec} {sI : RetrieverState Vec} {cI : Nat}
    (hI : getIndex cfg s0 = (.ok idx, sI, cI))
    {md : List MetadataRecord} {sM : RetrieverState Vec} {cM : Nat}
    (hM : getMetadata cfg s0 = (.ok md, sM, cM))
    {emb : String → Vec} {sE : RetrieverState Vec} {cE : Nat}
    (hE : getEmbedder cfg s0 = (.ok emb, sE, cE)) :
    (getIndex cfg sI = (.ok idx, sI, 0) ∧ cI = 1 ∧
      ∀ m, (callN (getIndex cfg) (m + 1) s0).2 = 1) ∧
    (getMetadata cfg sM = (.ok md, sM, 0) ∧ cM = 1 ∧
      ∀ m, (callN (getMetadata cfg) (m + 1) s0).2 = 1) ∧
    (getEmbedder cfg sE = (.ok emb, sE, 0) ∧ cE = 1 ∧
      ∀ m, (callN (getEmbedder cfg) (m + 1) s0).2 = 1) := by
  obtain ⟨hsI, hcI⟩ := getIndex_first h0I hI
  obtain ⟨hsM, hcM⟩ := getMetadata_first h0M hM
  obtain ⟨hsE, hcE⟩ := getEmbedder_first h0E hE
  refine ⟨⟨getIndex_cached hsI, hcI, ?_⟩,
    ⟨getMetadata_cached hsM, hcM, ?_⟩,
    ⟨getEmbedder_cached hsE, hcE, ?_⟩⟩
  · intro m
    simp [callN, hI, callN_getIndex_cached hsI m, hcI]
  · intro m
    simp [callN, hM, callN_getMetadata_cached hsM m, hcM]
  · intro m
    simp [callN, hE, callN_getEmbedder_cached hsE m, hcE]

/-- The state after the first successful index access under `cfgGood`. -/
def stateAfterIndex : RetrieverState Unit := ⟨some idx5, none, none⟩

/-- The state after the first successful metadata access under
`cfgGood`. -/
def stateAfterMeta : RetrieverState Unit := ⟨none, some md5, none⟩

/-- The state after the first successful embedder access under
`cfgGood`. -/
def stateAfterEmb : RetrieverState Unit := ⟨none, none, some embU⟩

/-- Witness for C6 under the concrete `cfgGood`: the second access of
each resource returns the cached handle at zero cost, and three
sequential index accesses from the fresh state decrypt exactly once. -/
theorem lazy_init_caches_once_witness :
    getIndex cfgGood stateAfterIndex = (.ok idx5, stateAfterIndex, 0) ∧
    (callN (getIndex cfgGood) 3 (freshState Unit)).2 = 1 ∧
    getMetadata cfgGood stateAfterMeta = (.ok md5, stateAfterMeta, 0) ∧
    getEmbedder cfgGood stateAfterEmb = (.ok embU, stateAfterEmb, 0) := by
  have h := @lazy_init_caches_once Unit cfgGood (freshState Unit) rfl rfl rfl
    idx5 stateAfterIndex 1 rfl md5 stateAfterMeta 1 rfl
    embU stateAfterEmb 1 rfl
  exact ⟨h.1.1, h.1.2.2 2, h.2.1.1, h.2.2.1⟩
